import Mathlib

set_option maxHeartbeats 1000000

/-!
Verification of the windowed chunking and batched-analysis orchestration
engine of the Rhetoric Analyzer repository.

The definitions below are a shallow embedding of:
  * `SlidingWindowChunker.split` / `_combine_to_groups`
    (src/application/chunker.py),
  * `FullPipeline._analyze_groups` / `LegacyPipeline.run`
    (src/application/pipeline.py),
  * `OpenAILLMChain.analyze_group` / `_parse_json`
    (src/infrastructure/llm/openai_client.py, shared result-building shape
    with src/infrastructure/llm/litellm_client.py),
  * the dataclasses of src/domain/models.py.

Python text is modelled as `List Char` (codepoint slicing), Python ints
that only ever hold sizes/offsets as `Nat`, and comparisons that can go
negative in Python (`max_chunks - 1`) are carried out over `Int`.
A Python statement that can raise an uncaught exception
(`deque.popleft()` on an empty deque) is modelled by returning `none`.
-/

namespace RhetoricAnalyzer

/-- `Chunk` dataclass (src/domain/models.py): one fragment of split text. -/
structure Chunk where
  speaker : String
  text : List Char
  token_length : Nat
  start_char_id : Nat
  end_char_id : Nat
deriving DecidableEq, Repr

/-- `ChunkGroup` dataclass (src/domain/models.py): one sliding window. -/
structure ChunkGroup where
  items : List Chunk
deriving DecidableEq, Repr

/-- The three configuration fields of `SlidingWindowChunker.__init__`
(defaults: 6000 / 12 / 6). -/
structure ChunkerCfg where
  max_tokens : Nat
  max_chunks : Nat
  window_start : Nat
deriving DecidableEq, Repr

/-- Running token total of a deque/window, as summed in
`_combine_to_groups` (`sum(c.token_length for c in curr_grp)`). -/
def sumTokens (l : List Chunk) : Nat :=
  (l.map Chunk.token_length).sum

/-- The guard of the eviction `while` loop in `_combine_to_groups`:
`curr_sum > self.max_tokens or len(curr_grp) > self.max_chunks - 1`.
The second comparison is carried out over `Int` because in Python
`max_chunks - 1` may be negative. -/
def overBudget (cfg : ChunkerCfg) (grp : List Chunk) (s : Nat) : Bool :=
  decide (cfg.max_tokens < s) || decide ((cfg.max_chunks : Int) - 1 < (grp.length : Int))

/-- The eviction `while` loop of `_combine_to_groups`:
`while curr_sum > max_tokens or len(curr_grp) > max_chunks - 1:
   curr_sum -= curr_grp.popleft().token_length`.
`none` models the `IndexError` Python raises when `popleft` runs on an
empty deque. -/
def evictLoop (cfg : ChunkerCfg) : List Chunk → Nat → Option (List Chunk × Nat)
  | [], s => if overBudget cfg [] s then none else some ([], s)
  | c :: rest, s =>
    if overBudget cfg (c :: rest) s then evictLoop cfg rest (s - c.token_length)
    else some (c :: rest, s)

/-- The `for i in range(start_idx, len(chunk_objs))` loop of
`_combine_to_groups`: add the next fragment's tokens to the running sum,
run the eviction loop, append the fragment, emit a snapshot window. -/
def combineAux (cfg : ChunkerCfg) : List Chunk → Nat → List Chunk → Option (List ChunkGroup)
  | _, _, [] => some []
  | grp, s, c :: rest =>
    match evictLoop cfg grp (s + c.token_length) with
    | none => none
    | some (grp2, s2) =>
      match combineAux cfg (grp2 ++ [c]) s2 rest with
      | none => none
      | some gs => some (ChunkGroup.mk (grp2 ++ [c]) :: gs)

/-- `SlidingWindowChunker._combine_to_groups` (chunker.py lines 62-74):
seed the deque with the first `window_start` fragments, then slide.
`none` models the uncaught `IndexError` described at `evictLoop`. -/
def combine_to_groups (cfg : ChunkerCfg) (chunk_objs : List Chunk) : Option (List ChunkGroup) :=
  combineAux cfg (chunk_objs.take cfg.window_start)
    (sumTokens (chunk_objs.take cfg.window_start))
    (chunk_objs.drop cfg.window_start)

/-- `AnalysisResult` dataclass (src/domain/models.py): one Detection. -/
structure AnalysisResult where
  group_idx : Nat
  speaker_slug : String
  mistake_slug : String
  group_start_char_id : Nat
  group_end_char_id : Nat
  chunk_start_char_id : Nat
  chunk_end_char_id : Nat
  reason : String
  how_starts : String
  how_ends : String
deriving DecidableEq, Repr

/-- The Analyzer Port: one `analyzer.analyze_group(idx, group, mistakes)`
call, which either returns a Detection list or raises (`Except.error`).
The `mistakes` catalog is constant over a run and absorbed into the
function. -/
abbrev Port := Nat → ChunkGroup → Except Unit (List AnalysisResult)

/-- `group.items[-1].speaker`, the anchor fragment's speaker label, read
via `getLast?` (windows produced by the chunker are never empty; the `""`
default is never exercised on them). -/
def anchorSpeaker (g : ChunkGroup) : String :=
  match g.items.getLast? with
  | some c => c.speaker
  | none => ""

/-- Observable outcome of one `_analyze_groups` run: accumulated results,
the indices at which the Analyzer Port was invoked, how many pacing
sleeps were performed, and the value of the `consecutive_errors` local
when the loop ends. -/
structure RunLog where
  results : List AnalysisResult
  calls : List Nat
  sleeps : Nat
  errors : Nat
deriving DecidableEq, Repr

/-- The `for idx, group in enumerate(groups[:limit])` loop of
`FullPipeline._analyze_groups` (pipeline.py lines 236-253; the loop of
`LegacyPipeline.run`, lines 300-316, is textually identical):
  * skip (plain `continue`, before the `try`) when the anchor speaker is
    the sentinel `"other"` — no call, no sleep, counter untouched;
  * on success reset `consecutive_errors` to 0 and extend the results;
  * on error increment the counter and `break` once it reaches 5;
  * the `finally` block sleeps when the configured delay is positive,
    on every non-skipped iteration (including the breaking one). -/
def analyze_groups_aux (port : Port) (delay : ℚ) :
    Nat → Nat → List AnalysisResult → List Nat → Nat → List ChunkGroup → RunLog
  | _, cnt, acc, calls, sleeps, [] => ⟨acc, calls, sleeps, cnt⟩
  | idx, cnt, acc, calls, sleeps, g :: rest =>
    if anchorSpeaker g = "other" then
      analyze_groups_aux port delay (idx + 1) cnt acc calls sleeps rest
    else
      match port idx g with
      | Except.ok dets =>
        analyze_groups_aux port delay (idx + 1) 0 (acc ++ dets) (calls ++ [idx])
          (if 0 < delay then sleeps + 1 else sleeps) rest
      | Except.error _ =>
        if 5 ≤ cnt + 1 then
          ⟨acc, calls ++ [idx], if 0 < delay then sleeps + 1 else sleeps, cnt + 1⟩
        else
          analyze_groups_aux port delay (idx + 1) (cnt + 1) acc (calls ++ [idx])
            (if 0 < delay then sleeps + 1 else sleeps) rest

/-- `FullPipeline._analyze_groups` (pipeline.py lines 219-255):
`limit = min(total, max_groups) if max_groups is not None else total`,
then the loop above over `groups[:limit]`. -/
def analyze_groups (port : Port) (delay : ℚ) (max_groups : Option Nat)
    (groups : List ChunkGroup) : RunLog :=
  let limit := match max_groups with
    | some m => min groups.length m
    | none => groups.length
  analyze_groups_aux port delay 0 0 [] [] 0 (groups.take limit)

/-- Sample non-skipped one-fragment window used by concrete witnesses. -/
def gSpk : ChunkGroup := ⟨[⟨"speaker", [], 1, 0, 0⟩]⟩

/-- Sample window whose anchor carries the sentinel skip label. -/
def gOther : ChunkGroup := ⟨[⟨"other", [], 1, 0, 0⟩]⟩

/-- Minimal JSON value model for the payloads handled by `_parse_json`. -/
inductive Json where
  | null : Json
  | bool (b : Bool) : Json
  | num (n : Int) : Json
  | str (s : String) : Json
  | arr (items : List Json) : Json
  | obj (fields : List (String × Json)) : Json

/-- `data.get(key)` on a parsed JSON object (`dict`). -/
def jlookup (key : String) (fields : List (String × Json)) : Option Json :=
  (fields.find? (fun p => p.1 == key)).map (fun p => p.2)

/-- `OpenAILLMChain._parse_json` (openai_client.py lines 88-102) at the
payload level: `none` stands for a raw response on which `json.loads`
raises (caught by the blanket `except`, yielding `[]`); otherwise the
parsed value is examined: a dict yields its `detections` entry when that
is a list (`data.get("detections", [])`, then the `isinstance` check), a
top-level list is accepted as-is, anything else yields `[]`. -/
def parse_json : Option Json → List Json
  | none => []
  | some (Json.obj fields) =>
    match jlookup ("detections") fields with
    | some (Json.arr items) => items
    | _ => []
  | some (Json.arr items) => items
  | some _ => []

/-- One entry of the parsed detections list, holding the four string
values `str(det.get("mistake_slug", ""))`, `str(det.get("reason", ""))`,
`str(det.get("how_starts", "") or "")`, `str(det.get("how_ends", "") or "")`
read by `analyze_group`. -/
structure RawDetection where
  mistake_slug : String
  reason : String
  how_starts : String
  how_ends : String
deriving DecidableEq, Repr

/-- `group.items[0].start_char_id` (0 default unused on real windows). -/
def headStartChar (g : ChunkGroup) : Nat :=
  match g.items.head? with
  | some c => c.start_char_id
  | none => 0

/-- `group.items[-1].start_char_id`. -/
def anchorStartChar (g : ChunkGroup) : Nat :=
  match g.items.getLast? with
  | some c => c.start_char_id
  | none => 0

/-- `group.items[-1].end_char_id`. -/
def anchorEndChar (g : ChunkGroup) : Nat :=
  match g.items.getLast? with
  | some c => c.end_char_id
  | none => 0

/-- Python `str.strip()`: drop leading and trailing whitespace. -/
def pyStrip (s : String) : String :=
  String.mk (((s.toList.dropWhile Char.isWhitespace).reverse.dropWhile
    Char.isWhitespace).reverse)

/-- Result-construction loop of `OpenAILLMChain.analyze_group`
(openai_client.py lines 67-86): skip entries whose stripped slug is
empty, otherwise build an `AnalysisResult` whose group-level offsets are
`items[0].start_char_id` / `items[-1].end_char_id` and whose chunk-level
offsets are the anchor's span.  `LiteLLMChain.analyze_group`
(litellm_client.py lines 154-178) builds the identical field set. -/
def build_results (group_idx : Nat) (g : ChunkGroup) (dets : List RawDetection) :
    List AnalysisResult :=
  dets.filterMap (fun det =>
    let slug := pyStrip det.mistake_slug
    if slug = "" then none
    else some ⟨group_idx, anchorSpeaker g, slug,
      headStartChar g, anchorEndChar g, anchorStartChar g, anchorEndChar g,
      pyStrip det.reason, det.how_starts, det.how_ends⟩)

/-- `analyze_group` after the model response arrived: parse the
detections list out of the payload, read each entry's string fields
(`extract` stands for the `str(det.get(...))` coercions), build the
results.  No exception is raised anywhere on this path. -/
def analyze_group_results (group_idx : Nat) (g : ChunkGroup)
    (extract : Json → RawDetection) (payload : Option Json) : List AnalysisResult :=
  build_results group_idx g ((parse_json payload).map extract)

/-- Offset/speaker walk of `SlidingWindowChunker.split` (chunker.py
lines 33-58): `start_pos = current_pos`, `end_pos = current_pos +
len(chunk)`, then `current_pos = end_pos + 2` — the separator length is
hard-coded as `2` in the source.  The source fills positions/speakers
and token lengths in two zips over the same fragment list; they are
fused into one pass here. -/
def buildChunks (speaker_fn : List Char → String) (tok : List Char → Nat) :
    List (List Char) → Nat → List Chunk
  | [], _ => []
  | f :: rest, pos =>
    ⟨speaker_fn f, f, tok f, pos, pos + f.length⟩ ::
      buildChunks speaker_fn tok rest (pos + f.length + 2)

/-- `SlidingWindowChunker.split` without the final grouping step: raw
fragments from the plug-in `split_fn`, tagged with speaker labels,
token lengths and character offsets. -/
def split_chunks (split_fn : List Char → List (List Char))
    (speaker_fn : List Char → String) (tok : List Char → Nat)
    (text : List Char) : List Chunk :=
  buildChunks speaker_fn tok (split_fn text) 0

/-- `SlidingWindowChunker.split` (chunker.py lines 32-60): split, tag,
then group via `_combine_to_groups`. -/
def chunker_split (cfg : ChunkerCfg) (split_fn : List Char → List (List Char))
    (speaker_fn : List Char → String) (tok : List Char → Nat)
    (text : List Char) : Option (List ChunkGroup) :=
  combine_to_groups cfg (split_chunks split_fn speaker_fn tok text)

/-- The default `speaker_fn` of `SlidingWindowChunker.__init__`
(chunker.py line 29): `lambda chunk: "other"`. -/
def default_speaker_fn : List Char → String := fun _ => "other"

/-- Python slice `text[a:b]` for `0 ≤ a ≤ b ≤ len(text)`. -/
def sliceText (t : List Char) (a b : Nat) : List Char :=
  (t.drop a).take (b - a)

/-- `separator.join(fragments)`. -/
def joinSep (sep : List Char) : List (List Char) → List Char
  | [] => []
  | [f] => f
  | f :: rest => f ++ sep ++ joinSep sep rest

/-- Sample two-fragment window with distinct head/anchor spans. -/
def gTwo : ChunkGroup := ⟨[⟨"s1", [], 1, 0, 3⟩, ⟨"s2", [], 1, 5, 9⟩]⟩

/-- Sample parsed detection entry with a non-empty slug. -/
def detOne : RawDetection := ⟨"slug", "r", "", ""⟩

/-! ### Helper lemmas about the chunker -/

theorem sumTokens_nil : sumTokens [] = 0 := rfl

theorem sumTokens_cons (c : Chunk) (l : List Chunk) :
    sumTokens (c :: l) = c.token_length + sumTokens l := by
  simp [sumTokens]

theorem sumTokens_append (l₁ l₂ : List Chunk) :
    sumTokens (l₁ ++ l₂) = sumTokens l₁ + sumTokens l₂ := by
  simp [sumTokens]

/-- What a successful run of the eviction loop guarantees: the returned
running sum is still the token total of the surviving deque (plus the
pending fragment's contribution `extra`), the guard is now false, and
the surviving deque is a sub-collection of the original one. -/
theorem evictLoop_spec (cfg : ChunkerCfg) :
    ∀ (grp : List Chunk) (extra s : Nat), s = sumTokens grp + extra →
      ∀ grp2 s2, evictLoop cfg grp s = some (grp2, s2) →
        s2 = sumTokens grp2 + extra ∧ overBudget cfg grp2 s2 = false ∧ grp2 ⊆ grp := by
  intro grp
  induction grp with
  | nil =>
    intro extra s hs grp2 s2 h
    simp only [evictLoop] at h
    by_cases hb : overBudget cfg [] s
    · simp [hb] at h
    · simp [hb] at h
      obtain ⟨rfl, rfl⟩ := h
      exact ⟨hs, by simpa using hb, List.Subset.refl _⟩
  | cons c rest ih =>
    intro extra s hs grp2 s2 h
    simp only [evictLoop] at h
    by_cases hb : overBudget cfg (c :: rest) s
    · simp only [hb, if_true] at h
      have hs' : s - c.token_length = sumTokens rest + extra := by
        rw [sumTokens_cons] at hs
        omega
      obtain ⟨h1, h2, h3⟩ := ih extra (s - c.token_length) hs' grp2 s2 h
      exact ⟨h1, h2, h3.trans (fun x hx => List.mem_cons_of_mem _ hx)⟩
    · simp only [hb, if_false] at h
      obtain ⟨rfl, rfl⟩ := h
      exact ⟨hs, by simpa using hb, List.Subset.refl _⟩

/-- The eviction loop only ever removes fragments: the surviving deque is
a sub-collection of the starting one, whatever the running sum was. -/
theorem evictLoop_subset (cfg : ChunkerCfg) :
    ∀ (grp : List Chunk) (s grp2 s2 : _), evictLoop cfg grp s = some (grp2, s2) →
      grp2 ⊆ grp := by
  intro grp
  induction grp with
  | nil =>
    intro s grp2 s2 h
    simp only [evictLoop] at h
    by_cases hb : overBudget cfg [] s
    · simp [hb] at h
    · simp [hb] at h
      obtain ⟨rfl, rfl⟩ := h
      exact List.Subset.refl _
  | cons c rest ih =>
    intro s grp2 s2 h
    simp only [evictLoop] at h
    by_cases hb : overBudget cfg (c :: rest) s
    · simp only [hb, if_true] at h
      exact (ih _ _ _ h).trans (fun x hx => List.mem_cons_of_mem _ hx)
    · simp only [hb, if_false] at h
      obtain ⟨rfl, rfl⟩ := h
      exact List.Subset.refl _

/-- When the eviction guard is false, the budget and cap constraints hold. -/
theorem overBudget_false (cfg : ChunkerCfg) (grp : List Chunk) (s : Nat)
    (h : overBudget cfg grp s = false) :
    s ≤ cfg.max_tokens ∧ grp.length + 1 ≤ cfg.max_chunks := by
  simp only [overBudget, Bool.or_eq_false_iff, decide_eq_false_iff_not, not_lt] at h
  obtain ⟨h1, h2⟩ := h
  constructor
  · exact h1
  · omega

/-- Every window emitted by a *completing* run of the sliding loop is
non-empty, within the fragment cap, and within the token budget. -/
theorem combineAux_windows (cfg : ChunkerCfg) :
    ∀ (rest grp : List Chunk) (s : Nat) (gs : List ChunkGroup),
      s = sumTokens grp →
      combineAux cfg grp s rest = some gs →
      ∀ g ∈ gs, g.items ≠ [] ∧ g.items.length ≤ cfg.max_chunks ∧
        sumTokens g.items ≤ cfg.max_tokens := by
  intro rest
  induction rest with
  | nil =>
    intro grp s gs _ h
    simp only [combineAux] at h
    obtain rfl : ([] : List ChunkGroup) = gs := by simpa using h
    intro g hg
    simp at hg
  | cons c rest ih =>
    intro grp s gs hs h
    simp only [combineAux] at h
    cases hev : evictLoop cfg grp (s + c.token_length) with
    | none => rw [hev] at h; cases h
    | some pr =>
      obtain ⟨grp2, s2⟩ := pr
      rw [hev] at h
      dsimp only at h
      have hspec := evictLoop_spec cfg grp c.token_length (s + c.token_length)
        (by rw [hs]) grp2 s2 hev
      obtain ⟨hs2, hbud, _⟩ := hspec
      obtain ⟨hbud1, hbud2⟩ := overBudget_false cfg grp2 s2 hbud
      cases hrec : combineAux cfg (grp2 ++ [c]) s2 rest with
      | none => rw [hrec] at h; cases h
      | some gs' =>
        rw [hrec] at h
        dsimp only at h
        obtain rfl : ChunkGroup.mk (grp2 ++ [c]) :: gs' = gs := by simpa using h
        intro g hg
        rcases List.mem_cons.mp hg with rfl | hg'
        · refine ⟨by simp, by simpa using hbud2, ?_⟩
          rw [sumTokens_append, sumTokens_cons, sumTokens_nil]
          omega
        · exact ih (grp2 ++ [c]) s2 gs'
            (by rw [sumTokens_append, sumTokens_cons, sumTokens_nil]; omega) hrec g hg'

/-- A completing run of the sliding loop emits one window per remaining
fragment, anchored (last element) at exactly that fragment. -/
theorem combineAux_anchors (cfg : ChunkerCfg) :
    ∀ (rest grp : List Chunk) (s : Nat) (gs : List ChunkGroup),
      combineAux cfg grp s rest = some gs →
      gs.length = rest.length ∧
      ∀ k g, gs.get? k = some g → g.items.getLast? = rest.get? k := by
  intro rest
  induction rest with
  | nil =>
    intro grp s gs h
    simp only [combineAux] at h
    obtain rfl : ([] : List ChunkGroup) = gs := by simpa using h
    refine ⟨rfl, ?_⟩
    intro k g hk
    simp at hk
  | cons c rest ih =>
    intro grp s gs h
    simp only [combineAux] at h
    cases hev : evictLoop cfg grp (s + c.token_length) with
    | none => rw [hev] at h; cases h
    | some pr =>
      obtain ⟨grp2, s2⟩ := pr
      rw [hev] at h
      dsimp only at h
      cases hrec : combineAux cfg (grp2 ++ [c]) s2 rest with
      | none => rw [hrec] at h; cases h
      | some gs' =>
        rw [hrec] at h
        dsimp only at h
        obtain rfl : ChunkGroup.mk (grp2 ++ [c]) :: gs' = gs := by simpa using h
        obtain ⟨hlen, hanch⟩ := ih (grp2 ++ [c]) s2 gs' hrec
        refine ⟨by simpa using hlen, ?_⟩
        intro k g hk
        cases k with
        | zero =>
          simp only [List.get?] at hk
          obtain rfl : ChunkGroup.mk (grp2 ++ [c]) = g := by simpa using hk
          simp [List.getLast?_concat]
        | succ k =>
          simp only [List.get?] at hk ⊢
          exact hanch k g hk

/-- Every chunk appearing in an emitted window came from the seed deque
or from the remaining fragment stream. -/
theorem combineAux_mem (cfg : ChunkerCfg) :
    ∀ (rest grp : List Chunk) (s : Nat) (gs : List ChunkGroup),
      combineAux cfg grp s rest = some gs →
      ∀ g ∈ gs, ∀ x ∈ g.items, x ∈ grp ∨ x ∈ rest := by
  intro rest
  induction rest with
  | nil =>
    intro grp s gs h
    simp only [combineAux] at h
    obtain rfl : ([] : List ChunkGroup) = gs := by simpa using h
    intro g hg
    simp at hg
  | cons c rest ih =>
    intro grp s gs h
    simp only [combineAux] at h
    cases hev : evictLoop cfg grp (s + c.token_length) with
    | none => rw [hev] at h; cases h
    | some pr =>
      obtain ⟨grp2, s2⟩ := pr
      rw [hev] at h
      dsimp only at h
      have hsub : grp2 ⊆ grp := evictLoop_subset cfg grp _ grp2 s2 hev
      cases hrec : combineAux cfg (grp2 ++ [c]) s2 rest with
      | none => rw [hrec] at h; cases h
      | some gs' =>
        rw [hrec] at h
        dsimp only at h
        obtain rfl : ChunkGroup.mk (grp2 ++ [c]) :: gs' = gs := by simpa using h
        intro g hg x hx
        rcases List.mem_cons.mp hg with rfl | hg'
        · rcases List.mem_append.mp hx with hx' | hx'
          · exact Or.inl (hsub hx')
          · simp at hx'
            subst hx'
            exact Or.inr (List.mem_cons_self _ _)
        · rcases ih (grp2 ++ [c]) s2 gs' hrec g hg' x hx with hx' | hx'
          · rcases List.mem_append.mp hx' with h1 | h1
            · exact Or.inl (hsub h1)
            · simp at h1
              subst h1
              exact Or.inr (List.mem_cons_self _ _)
          · exact Or.inr (List.mem_cons_of_mem _ hx')

/-! ### Claims C1-C3 -/

/-- C1: the claim asserts that eviction in `_combine_to_groups` never pops
the working deque while it is empty, so that a single fragment whose
token_length alone exceeds `max_tokens` is retained as a one-fragment
window and the call completes without raising.  The code appends the
anchor fragment only *after* the eviction loop, so on this input the
deque is drained empty and the next `popleft` raises `IndexError`
(modelled as `none`): with `max_tokens = 1`, `window_start = 0`,
`max_chunks = 12` and one fragment of token_length 2 the call crashes
instead of emitting the one-fragment window the claim requires. -/
theorem c1_oversized_fragment_crash :
    combine_to_groups ⟨1, 12, 0⟩ [⟨"s", [], 2, 0, 0⟩] = none := by decide

/-- C2: every window emitted by a completing run of `_combine_to_groups`
is non-empty, has at most `max_chunks` fragments, and its token total is
within `max_tokens` (hence also the claimed disjunction with the
one-fragment case). -/
theorem c2_window_invariant (cfg : ChunkerCfg) (chunks : List Chunk)
    (gs : List ChunkGroup) (h : combine_to_groups cfg chunks = some gs) :
    ∀ g ∈ gs, g.items ≠ [] ∧ g.items.length ≤ cfg.max_chunks ∧
      (sumTokens g.items ≤ cfg.max_tokens ∨ g.items.length = 1) := by
  intro g hg
  obtain ⟨h1, h2, h3⟩ := combineAux_windows cfg (chunks.drop cfg.window_start)
    (chunks.take cfg.window_start) (sumTokens (chunks.take cfg.window_start)) gs rfl h g hg
  exact ⟨h1, h2, Or.inl h3⟩

/-- Witness for C2 on the spec's own scenario: `max_tokens = 10`,
`max_chunks = 3`, `window_start = 2`, token lengths `[4,4,5,5,5]`:
three windows are emitted and each satisfies the invariant. -/
theorem c2_window_invariant_witness :
    (ChunkGroup.mk [⟨"s", [], 4, 0, 0⟩, ⟨"s", [], 5, 0, 0⟩]).items ≠ [] ∧
    (ChunkGroup.mk [⟨"s", [], 4, 0, 0⟩, ⟨"s", [], 5, 0, 0⟩]).items.length ≤ (3 : Nat) ∧
    (sumTokens (ChunkGroup.mk [⟨"s", [], 4, 0, 0⟩, ⟨"s", [], 5, 0, 0⟩]).items ≤ (10 : Nat) ∨
      (ChunkGroup.mk [⟨"s", [], 4, 0, 0⟩, ⟨"s", [], 5, 0, 0⟩]).items.length = 1) :=
  c2_window_invariant ⟨10, 3, 2⟩
    [⟨"s", [], 4, 0, 0⟩, ⟨"s", [], 4, 0, 0⟩, ⟨"s", [], 5, 0, 0⟩,
     ⟨"s", [], 5, 0, 0⟩, ⟨"s", [], 5, 0, 0⟩]
    [ChunkGroup.mk [⟨"s", [], 4, 0, 0⟩, ⟨"s", [], 5, 0, 0⟩],
     ChunkGroup.mk [⟨"s", [], 5, 0, 0⟩, ⟨"s", [], 5, 0, 0⟩],
     ChunkGroup.mk [⟨"s", [], 5, 0, 0⟩, ⟨"s", [], 5, 0, 0⟩]] (by decide)
    (ChunkGroup.mk [⟨"s", [], 4, 0, 0⟩, ⟨"s", [], 5, 0, 0⟩]) (by decide)

/-- C3 as stated is false: on a fragment sequence containing an oversized
fragment the Grouper raises (models as `none`) instead of emitting
`max(0, n - window_start)` windows.  Here `n = 2`, `window_start = 1`,
so the claim demands exactly one window, but the run crashes and emits
none: with `max_tokens = 5` the second fragment (token_length 7) drains
the deque and pops it empty. -/
theorem c3_counterexample :
    ¬ ∃ gs, combine_to_groups ⟨5, 12, 1⟩
        [⟨"a", [], 1, 0, 0⟩, ⟨"b", [], 7, 0, 0⟩] = some gs ∧ gs.length = 2 - 1 := by
  rintro ⟨gs, hgs, -⟩
  rw [(by decide : combine_to_groups ⟨5, 12, 1⟩
        [⟨"a", [], 1, 0, 0⟩, ⟨"b", [], 7, 0, 0⟩] = (none : Option (List ChunkGroup)))] at hgs
  exact Option.noConfusion hgs

/-- C3 (amended): whenever `_combine_to_groups` completes without
raising, it emits exactly `max(0, n - window_start)` windows, in order,
and the k-th window's last (anchor) fragment is input fragment
`window_start + k`; in particular zero windows when `n ≤ window_start`. -/
theorem c3_window_count_and_anchors (cfg : ChunkerCfg) (chunks : List Chunk)
    (gs : List ChunkGroup) (h : combine_to_groups cfg chunks = some gs) :
    gs.length = chunks.length - cfg.window_start ∧
    ∀ k g, gs.get? k = some g →
      g.items.getLast? = chunks.get? (cfg.window_start + k) := by
  obtain ⟨hlen, hanch⟩ := combineAux_anchors cfg (chunks.drop cfg.window_start)
    (chunks.take cfg.window_start) (sumTokens (chunks.take cfg.window_start)) gs h
  constructor
  · simpa using hlen
  · intro k g hk
    rw [hanch k g hk, List.get?_drop]

/-- Witness for C3 (amended) at `window_start = 2`, five fragments:
three windows, anchored at fragments 2, 3, 4. -/
theorem c3_window_count_and_anchors_witness :
    ([ChunkGroup.mk [⟨"s", [], 4, 0, 0⟩, ⟨"s", [], 5, 0, 0⟩],
      ChunkGroup.mk [⟨"s", [], 5, 0, 0⟩, ⟨"s", [], 5, 1, 1⟩],
      ChunkGroup.mk [⟨"s", [], 5, 1, 1⟩, ⟨"s", [], 5, 2, 2⟩]].length
      = ([⟨"s", [], 4, 0, 0⟩, ⟨"s", [], 4, 0, 0⟩, ⟨"s", [], 5, 0, 0⟩,
          ⟨"s", [], 5, 1, 1⟩, ⟨"s", [], 5, 2, 2⟩] : List Chunk).length - 2) ∧
    (ChunkGroup.mk [⟨"s", [], 4, 0, 0⟩, ⟨"s", [], 5, 0, 0⟩]).items.getLast?
      = ([⟨"s", [], 4, 0, 0⟩, ⟨"s", [], 4, 0, 0⟩, ⟨"s", [], 5, 0, 0⟩,
          ⟨"s", [], 5, 1, 1⟩, ⟨"s", [], 5, 2, 2⟩] : List Chunk).get? (2 + 0) :=
  ⟨(c3_window_count_and_anchors ⟨10, 3, 2⟩
      [⟨"s", [], 4, 0, 0⟩, ⟨"s", [], 4, 0, 0⟩, ⟨"s", [], 5, 0, 0⟩,
       ⟨"s", [], 5, 1, 1⟩, ⟨"s", [], 5, 2, 2⟩]
      [ChunkGroup.mk [⟨"s", [], 4, 0, 0⟩, ⟨"s", [], 5, 0, 0⟩],
       ChunkGroup.mk [⟨"s", [], 5, 0, 0⟩, ⟨"s", [], 5, 1, 1⟩],
       ChunkGroup.mk [⟨"s", [], 5, 1, 1⟩, ⟨"s", [], 5, 2, 2⟩]] (by decide)).1,
   (c3_window_count_and_anchors ⟨10, 3, 2⟩
      [⟨"s", [], 4, 0, 0⟩, ⟨"s", [], 4, 0, 0⟩, ⟨"s", [], 5, 0, 0⟩,
       ⟨"s", [], 5, 1, 1⟩, ⟨"s", [], 5, 2, 2⟩]
      [ChunkGroup.mk [⟨"s", [], 4, 0, 0⟩, ⟨"s", [], 5, 0, 0⟩],
       ChunkGroup.mk [⟨"s", [], 5, 0, 0⟩, ⟨"s", [], 5, 1, 1⟩],
       ChunkGroup.mk [⟨"s", [], 5, 1, 1⟩, ⟨"s", [], 5, 2, 2⟩]] (by decide)).2 0
      (ChunkGroup.mk [⟨"s", [], 4, 0, 0⟩, ⟨"s", [], 5, 0, 0⟩]) (by decide)⟩

/-! ### Helper lemmas about the orchestrator loop -/

theorem aux_skip (port : Port) (delay : ℚ) (i cnt : Nat) (acc : List AnalysisResult)
    (calls : List Nat) (sleeps : Nat) (g : ChunkGroup) (rest : List ChunkGroup)
    (hg : anchorSpeaker g = "other") :
    analyze_groups_aux port delay i cnt acc calls sleeps (g :: rest)
      = analyze_groups_aux port delay (i + 1) cnt acc calls sleeps rest := by
  simp [analyze_groups_aux, hg]

theorem aux_ok (port : Port) (delay : ℚ) (i cnt : Nat) (acc : List AnalysisResult)
    (calls : List Nat) (sleeps : Nat) (g : ChunkGroup) (rest : List ChunkGroup)
    (dets : List AnalysisResult)
    (hg : anchorSpeaker g ≠ "other") (hp : port i g = Except.ok dets) :
    analyze_groups_aux port delay i cnt acc calls sleeps (g :: rest)
      = analyze_groups_aux port delay (i + 1) 0 (acc ++ dets) (calls ++ [i])
          (if 0 < delay then sleeps + 1 else sleeps) rest := by
  simp [analyze_groups_aux, hg, hp]

theorem aux_err_cont (port : Port) (delay : ℚ) (i cnt : Nat) (acc : List AnalysisResult)
    (calls : List Nat) (sleeps : Nat) (g : ChunkGroup) (rest : List ChunkGroup)
    (hg : anchorSpeaker g ≠ "other") (hp : port i g = Except.error ())
    (hc : cnt + 1 < 5) :
    analyze_groups_aux port delay i cnt acc calls sleeps (g :: rest)
      = analyze_groups_aux port delay (i + 1) (cnt + 1) acc (calls ++ [i])
          (if 0 < delay then sleeps + 1 else sleeps) rest := by
  simp [analyze_groups_aux, hg, hp, Nat.not_le.mpr hc]

theorem aux_err_stop (port : Port) (delay : ℚ) (i cnt : Nat) (acc : List AnalysisResult)
    (calls : List Nat) (sleeps : Nat) (g : ChunkGroup) (rest : List ChunkGroup)
    (hg : anchorSpeaker g ≠ "other") (hp : port i g = Except.error ())
    (hc : 5 ≤ cnt + 1) :
    analyze_groups_aux port delay i cnt acc calls sleeps (g :: rest)
      = ⟨acc, calls ++ [i], if 0 < delay then sleeps + 1 else sleeps, cnt + 1⟩ := by
  simp [analyze_groups_aux, hg, hp, hc]

/-- Processing a prefix on which every non-skipped window succeeds keeps
the consecutive-error counter at 0 and simply carries the accumulated
state into the remainder of the window stream. -/
theorem aux_append_successes (port : Port) (delay : ℚ) :
    ∀ (pre rest : List ChunkGroup) (i : Nat) (acc : List AnalysisResult)
      (calls : List Nat) (sleeps : Nat),
      (∀ j g, pre.get? j = some g → anchorSpeaker g ≠ "other" →
        ∃ dets, port (i + j) g = Except.ok dets) →
      analyze_groups_aux port delay i 0 acc calls sleeps (pre ++ rest)
        = analyze_groups_aux port delay (i + pre.length) 0
            (analyze_groups_aux port delay i 0 acc calls sleeps pre).results
            (analyze_groups_aux port delay i 0 acc calls sleeps pre).calls
            (analyze_groups_aux port delay i 0 acc calls sleeps pre).sleeps rest := by
  intro pre
  induction pre with
  | nil =>
    intro rest i acc calls sleeps _
    simp [analyze_groups_aux]
  | cons g pre ih =>
    intro rest i acc calls sleeps hpre
    have hpre' : ∀ j g', pre.get? j = some g' → anchorSpeaker g' ≠ "other" →
        ∃ dets, port ((i + 1) + j) g' = Except.ok dets := by
      intro j g' hj hg'
      have := hpre (j + 1) g' (by simpa using hj) hg'
      have harith : i + (j + 1) = (i + 1) + j := by omega
      rwa [harith] at this
    have hlen : i + (g :: pre).length = (i + 1) + pre.length := by
      simp
      omega
    by_cases hg : anchorSpeaker g = "other"
    · rw [List.cons_append, aux_skip port delay i 0 acc calls sleeps g (pre ++ rest) hg,
        aux_skip port delay i 0 acc calls sleeps g pre hg, hlen]
      exact ih rest (i + 1) acc calls sleeps hpre'
    · obtain ⟨dets, hp⟩ := hpre 0 g (by simp) hg
      rw [Nat.add_zero] at hp
      rw [List.cons_append, aux_ok port delay i 0 acc calls sleeps g (pre ++ rest) dets hg hp,
        aux_ok port delay i 0 acc calls sleeps g pre dets hg hp, hlen]
      exact ih rest (i + 1) (acc ++ dets) (calls ++ [i])
        (if 0 < delay then sleeps + 1 else sleeps) hpre'

/-- Five consecutive failing, non-skipped windows starting with the
counter at 0: the loop performs exactly those five calls and stops,
never touching the rest of the stream. -/
theorem aux_five_failures (port : Port) (delay : ℚ) (i : Nat)
    (acc : List AnalysisResult) (calls : List Nat) (sleeps : Nat)
    (b1 b2 b3 b4 b5 : ChunkGroup) (rest : List ChunkGroup)
    (hs1 : anchorSpeaker b1 ≠ "other") (he1 : port i b1 = Except.error ())
    (hs2 : anchorSpeaker b2 ≠ "other") (he2 : port (i + 1) b2 = Except.error ())
    (hs3 : anchorSpeaker b3 ≠ "other") (he3 : port (i + 2) b3 = Except.error ())
    (hs4 : anchorSpeaker b4 ≠ "other") (he4 : port (i + 3) b4 = Except.error ())
    (hs5 : anchorSpeaker b5 ≠ "other") (he5 : port (i + 4) b5 = Except.error ()) :
    analyze_groups_aux port delay i 0 acc calls sleeps (b1 :: b2 :: b3 :: b4 :: b5 :: rest)
      = ⟨acc, calls ++ [i, i + 1, i + 2, i + 3, i + 4],
          if 0 < delay then sleeps + 5 else sleeps, 5⟩ := by
  rw [aux_err_cont port delay i 0 acc calls sleeps b1 _ hs1 he1 (by omega)]
  rw [aux_err_cont port delay (i + 1) 1 acc (calls ++ [i]) _ b2 _ hs2 he2 (by omega)]
  rw [aux_err_cont port delay (i + 2) 2 acc ((calls ++ [i]) ++ [i + 1]) _ b3 _ hs3 he3 (by omega)]
  rw [aux_err_cont port delay (i + 3) 3 acc (((calls ++ [i]) ++ [i + 1]) ++ [i + 2]) _ b4 _
    hs4 he4 (by omega)]
  rw [aux_err_stop port delay (i + 4) 4 acc ((((calls ++ [i]) ++ [i + 1]) ++ [i + 2]) ++ [i + 3]) _
    b5 _ hs5 he5 (by omega)]
  by_cases hd : 0 < delay
  · simp [hd, List.append_assoc]
  · simp [hd, List.append_assoc]

/-- Every Port-call index recorded by the loop is either inherited from
the incoming trace or belongs to a non-skipped window of the stream, at
its enumeration position. -/
theorem aux_calls_mem (port : Port) (delay : ℚ) :
    ∀ (gs : List ChunkGroup) (i cnt : Nat) (acc : List AnalysisResult)
      (calls : List Nat) (sleeps : Nat) (e : Nat),
      e ∈ (analyze_groups_aux port delay i cnt acc calls sleeps gs).calls →
      e ∈ calls ∨ ∃ j g, gs.get? j = some g ∧ e = i + j ∧ anchorSpeaker g ≠ "other" := by
  intro gs
  induction gs with
  | nil =>
    intro i cnt acc calls sleeps e he
    exact Or.inl he
  | cons g rest ih =>
    intro i cnt acc calls sleeps e he
    have shift : (e ∈ calls ++ [i] ∨
        ∃ j g', rest.get? j = some g' ∧ e = (i + 1) + j ∧ anchorSpeaker g' ≠ "other") →
        (anchorSpeaker g ≠ "other") →
        e ∈ calls ∨ ∃ j g', (g :: rest).get? j = some g' ∧ e = i + j ∧
          anchorSpeaker g' ≠ "other" := by
      rintro (hc | ⟨j, g', hj, rfl, hg'⟩) hg
      · rcases List.mem_append.mp hc with hc | hc
        · exact Or.inl hc
        · simp at hc
          exact Or.inr ⟨0, g, by simp, by omega, hg⟩
      · exact Or.inr ⟨j + 1, g', by simpa using hj, by omega, hg'⟩
    by_cases hg : anchorSpeaker g = "other"
    · rw [aux_skip port delay i cnt acc calls sleeps g rest hg] at he
      rcases ih (i + 1) cnt acc calls sleeps e he with hc | ⟨j, g', hj, rfl, hg'⟩
      · exact Or.inl hc
      · exact Or.inr ⟨j + 1, g', by simpa using hj, by omega, hg'⟩
    · cases hp : port i g with
      | ok dets =>
        rw [aux_ok port delay i cnt acc calls sleeps g rest dets hg hp] at he
        exact shift (ih (i + 1) 0 (acc ++ dets) (calls ++ [i]) _ e he) hg
      | error u =>
        cases u
        by_cases hc : 5 ≤ cnt + 1
        · rw [aux_err_stop port delay i cnt acc calls sleeps g rest hg hp hc] at he
          simp only at he
          rcases List.mem_append.mp he with hc' | hc'
          · exact Or.inl hc'
          · simp at hc'
            exact Or.inr ⟨0, g, by simp, by omega, hg⟩
        · rw [aux_err_cont port delay i cnt acc calls sleeps g rest hg hp (by omega)] at he
          exact shift (ih (i + 1) (cnt + 1) acc (calls ++ [i]) _ e he) hg

/-- With a positive pacing delay, the loop performs exactly one sleep per
Port call (success, failure, and the breaking failure alike), and none
for skipped windows. -/
theorem aux_sleeps_eq_calls (port : Port) (delay : ℚ) (hd : 0 < delay) :
    ∀ (gs : List ChunkGroup) (i cnt : Nat) (acc : List AnalysisResult)
      (calls : List Nat) (sleeps : Nat),
      (analyze_groups_aux port delay i cnt acc calls sleeps gs).sleeps + calls.length
        = (analyze_groups_aux port delay i cnt acc calls sleeps gs).calls.length + sleeps := by
  intro gs
  induction gs with
  | nil =>
    intro i cnt acc calls sleeps
    simp [analyze_groups_aux]
    omega
  | cons g rest ih =>
    intro i cnt acc calls sleeps
    by_cases hg : anchorSpeaker g = "other"
    · rw [aux_skip port delay i cnt acc calls sleeps g rest hg]
      exact ih (i + 1) cnt acc calls sleeps
    · cases hp : port i g with
      | ok dets =>
        rw [aux_ok port delay i cnt acc calls sleeps g rest dets hg hp, if_pos hd]
        have := ih (i + 1) 0 (acc ++ dets) (calls ++ [i]) (sleeps + 1)
        simp only [List.length_append, List.length_cons, List.length_nil] at this ⊢
        omega
      | error u =>
        cases u
        by_cases hc : 5 ≤ cnt + 1
        · rw [aux_err_stop port delay i cnt acc calls sleeps g rest hg hp hc, if_pos hd]
          simp
          omega
        · rw [aux_err_cont port delay i cnt acc calls sleeps g rest hg hp (by omega), if_pos hd]
          have := ih (i + 1) (cnt + 1) acc (calls ++ [i]) (sleeps + 1)
          simp only [List.length_append, List.length_cons, List.length_nil] at this ⊢
          omega

/-- A stream of windows that are all skip-labelled leaves the run state
untouched: no calls, no results, no sleeps, counter unchanged. -/
theorem aux_all_skipped (port : Port) (delay : ℚ) :
    ∀ (gs : List ChunkGroup) (i cnt : Nat) (acc : List AnalysisResult)
      (calls : List Nat) (sleeps : Nat),
      (∀ g ∈ gs, anchorSpeaker g = "other") →
      analyze_groups_aux port delay i cnt acc calls sleeps gs = ⟨acc, calls, sleeps, cnt⟩ := by
  intro gs
  induction gs with
  | nil =>
    intro i cnt acc calls sleeps _
    rfl
  | cons g rest ih =>
    intro i cnt acc calls sleeps hall
    rw [aux_skip port delay i cnt acc calls sleeps g rest (hall g (List.mem_cons_self _ _))]
    exact ih (i + 1) cnt acc calls sleeps (fun g' hg' => hall g' (List.mem_cons_of_mem _ hg'))

/-- With no `max_groups` ceiling, the run processes the whole stream. -/
theorem analyze_groups_none (port : Port) (delay : ℚ) (gs : List ChunkGroup) :
    analyze_groups port delay none gs = analyze_groups_aux port delay 0 0 [] [] 0 gs := by
  dsimp only [analyze_groups]
  rw [List.take_length]

/-- Locating a fixed element of the stream: index `pre.length` of
`pre ++ g :: rest` holds `g`. -/
theorem get?_append_middle (pre rest : List ChunkGroup) (g : ChunkGroup) :
    (pre ++ g :: rest).get? pre.length = some g := by
  rw [List.get?_eq_getElem?, List.getElem?_append_right (le_refl _), Nat.sub_self]
  simp

/-- A skip-labelled window's index is never in the call trace, whatever
truncation prefix of the stream the loop runs on. -/
theorem skip_index_not_called (port : Port) (delay : ℚ) (L : List ChunkGroup)
    (limit n : Nat) (g : ChunkGroup)
    (hget : L.get? n = some g) (hg : anchorSpeaker g = "other") :
    n ∉ (analyze_groups_aux port delay 0 0 [] [] 0 (L.take limit)).calls := by
  intro hmem
  rcases aux_calls_mem port delay _ 0 0 [] [] 0 n hmem with hc | ⟨j, g', hj, hjj, hg'⟩
  · simp at hc
  · have hlt : j < (L.take limit).length := (List.get?_eq_some.mp hj).1
    have hlt2 : j < limit := lt_of_lt_of_le hlt (L.length_take_le limit)
    rw [List.get?_take hlt2] at hj
    have hjn : j = n := by omega
    subst hjn
    rw [hget] at hj
    exact hg' (Option.some.inj hj ▸ hg)

/-! ### Claims C4, C7, C8 -/

/-- C4: if the Analyzer Port fails on five consecutive non-skipped
windows (threshold 5), the Orchestrator stops immediately after the
fifth consecutive failure — the run is identical to the run truncated at
that window, the Port is never invoked at any index past it, and all
Detections accumulated from the successful prefix are retained; a
success resets the consecutive-failure counter to 0 (visible in
`aux_ok`, whose counter argument restarts at 0, used here on the
prefix). -/
theorem c4_circuit_breaker (port : Port) (delay : ℚ) (pre post : List ChunkGroup)
    (b1 b2 b3 b4 b5 : ChunkGroup)
    (hne : ∀ g ∈ pre ++ ([b1, b2, b3, b4, b5] ++ post), g.items ≠ [])
    (hpre : ∀ j g, pre.get? j = some g → anchorSpeaker g ≠ "other" →
      ∃ dets, port j g = Except.ok dets)
    (hs1 : anchorSpeaker b1 ≠ "other") (he1 : port pre.length b1 = Except.error ())
    (hs2 : anchorSpeaker b2 ≠ "other") (he2 : port (pre.length + 1) b2 = Except.error ())
    (hs3 : anchorSpeaker b3 ≠ "other") (he3 : port (pre.length + 2) b3 = Except.error ())
    (hs4 : anchorSpeaker b4 ≠ "other") (he4 : port (pre.length + 3) b4 = Except.error ())
    (hs5 : anchorSpeaker b5 ≠ "other") (he5 : port (pre.length + 4) b5 = Except.error ()) :
    analyze_groups port delay none (pre ++ ([b1, b2, b3, b4, b5] ++ post))
      = analyze_groups port delay none (pre ++ [b1, b2, b3, b4, b5])
    ∧ (analyze_groups port delay none (pre ++ ([b1, b2, b3, b4, b5] ++ post))).results
      = (analyze_groups port delay none pre).results
    ∧ ∀ e ∈ (analyze_groups port delay none (pre ++ ([b1, b2, b3, b4, b5] ++ post))).calls,
        e < pre.length + 5 := by
  have hpre0 : ∀ j g, pre.get? j = some g → anchorSpeaker g ≠ "other" →
      ∃ dets, port (0 + j) g = Except.ok dets := by
    intro j g hj hg
    rw [Nat.zero_add]
    exact hpre j g hj hg
  have hrunfull := analyze_groups_none port delay (pre ++ ([b1, b2, b3, b4, b5] ++ post))
  have hruncut := analyze_groups_none port delay (pre ++ [b1, b2, b3, b4, b5])
  have hrunpre := analyze_groups_none port delay pre
  set P := analyze_groups_aux port delay 0 0 [] [] 0 pre with hP
  have hfull := aux_append_successes port delay pre ([b1, b2, b3, b4, b5] ++ post) 0 [] [] 0 hpre0
  have hcut := aux_append_successes port delay pre [b1, b2, b3, b4, b5] 0 [] [] 0 hpre0
  rw [Nat.zero_add] at hfull hcut
  have hfive_full := aux_five_failures port delay pre.length P.results P.calls P.sleeps
    b1 b2 b3 b4 b5 post hs1 he1 hs2 he2 hs3 he3 hs4 he4 hs5 he5
  have hfive_cut := aux_five_failures port delay pre.length P.results P.calls P.sleeps
    b1 b2 b3 b4 b5 [] hs1 he1 hs2 he2 hs3 he3 hs4 he4 hs5 he5
  have hfull2 :
      analyze_groups_aux port delay 0 0 [] [] 0 (pre ++ ([b1, b2, b3, b4, b5] ++ post))
        = ⟨P.results, P.calls ++ [pre.length, pre.length + 1, pre.length + 2,
            pre.length + 3, pre.length + 4],
            if 0 < delay then P.sleeps + 5 else P.sleeps, 5⟩ := by
    rw [hfull]
    simpa using hfive_full
  have hcut2 :
      analyze_groups_aux port delay 0 0 [] [] 0 (pre ++ [b1, b2, b3, b4, b5])
        = ⟨P.results, P.calls ++ [pre.length, pre.length + 1, pre.length + 2,
            pre.length + 3, pre.length + 4],
            if 0 < delay then P.sleeps + 5 else P.sleeps, 5⟩ := by
    rw [hcut]
    simpa using hfive_cut
  refine ⟨by rw [hrunfull, hruncut, hfull2, hcut2], ?_, ?_⟩
  · rw [hrunfull, hfull2, hrunpre]
  · intro e he
    rw [hrunfull, hfull2] at he
    simp only at he
    rcases List.mem_append.mp he with hc | hc
    · rcases aux_calls_mem port delay pre 0 0 [] [] 0 e hc with hc' | ⟨j, g, hj, rfl, _⟩
      · simp at hc'
      · have hlt : j < pre.length := (List.get?_eq_some.mp hj).1
        omega
    · simp at hc
      rcases hc with rfl | rfl | rfl | rfl | rfl <;> omega

/-- Witness for C4: an always-failing Port over six non-skipped windows:
the results equal those of the empty prefix. -/
theorem c4_circuit_breaker_witness :
    (analyze_groups (fun _ _ => Except.error ()) 0 none
        ([] ++ ([gSpk, gSpk, gSpk, gSpk, gSpk] ++ [gSpk]))).results
      = (analyze_groups (fun _ _ => Except.error ()) 0 none []).results :=
  (c4_circuit_breaker (fun _ _ => Except.error ()) 0 [] [gSpk] gSpk gSpk gSpk gSpk gSpk
    (by decide)
    (by intro j g hj; cases j <;> simp [List.get?] at hj)
    (by decide) rfl (by decide) rfl (by decide) rfl (by decide) rfl (by decide) rfl).2.1

/-- C7: a window whose anchor fragment carries the sentinel
non-substantive speaker label `"other"` is skipped wholesale: the loop
step leaves results, call trace, sleep count and the error counter
untouched, and, whatever the Port does, the Port is never invoked at
that window's index in a full run. -/
theorem c7_skip_rule (port : Port) (delay : ℚ) (mg : Option Nat)
    (pre rest : List ChunkGroup) (g : ChunkGroup)
    (i cnt : Nat) (acc : List AnalysisResult) (calls : List Nat) (sleeps : Nat)
    (hne : g.items ≠ []) (hg : anchorSpeaker g = "other") :
    analyze_groups_aux port delay i cnt acc calls sleeps (g :: rest)
      = analyze_groups_aux port delay (i + 1) cnt acc calls sleeps rest
    ∧ pre.length ∉ (analyze_groups port delay mg (pre ++ g :: rest)).calls := by
  refine ⟨aux_skip port delay i cnt acc calls sleeps g rest hg, ?_⟩
  intro hmem
  dsimp only [analyze_groups] at hmem
  exact skip_index_not_called port delay (pre ++ g :: rest) _ pre.length g
    (get?_append_middle pre rest g) hg hmem

/-- Witness for C7: a one-window stream whose anchor speaker is
`"other"`, against a Port that would return detections if called. -/
theorem c7_skip_rule_witness :
    analyze_groups_aux (fun _ _ => Except.ok []) 0 0 0 [] [] 0 [gOther]
      = analyze_groups_aux (fun _ _ => Except.ok []) 0 (0 + 1) 0 [] [] 0 []
    ∧ ([] : List ChunkGroup).length
        ∉ (analyze_groups (fun _ _ => Except.ok []) 0 none ([] ++ gOther :: [])).calls :=
  c7_skip_rule (fun _ _ => Except.ok []) 0 none [] [] gOther 0 0 [] [] 0
    (by decide) (by decide)

/-- C8 as stated is false: the skip `continue` sits *before* the
`try/finally`, so no pacing sleep happens after a skipped window.  With
delay 1 (> 0) and a single skipped window the run performs zero sleeps,
where the claim requires one. -/
theorem c8_counterexample :
    (0 : ℚ) < 1 ∧
    (analyze_groups (fun _ _ => Except.ok []) 1 none [gOther]).sleeps = 0 := by
  constructor
  · norm_num
  · decide

/-- C8 (amended): with a positive configured delay the Orchestrator
pauses exactly once after every *non-skipped* window — successful,
failed, and the circuit-breaking failure alike (the `finally` runs on
`break` too) — but not after skipped windows: the number of sleeps
equals the number of Port calls. -/
theorem c8_pause_per_call (port : Port) (delay : ℚ) (mg : Option Nat)
    (gs : List ChunkGroup) (hd : 0 < delay) :
    (analyze_groups port delay mg gs).sleeps
      = (analyze_groups port delay mg gs).calls.length := by
  dsimp only [analyze_groups]
  have := aux_sleeps_eq_calls port delay hd (gs.take (match mg with
    | some m => min gs.length m
    | none => gs.length)) 0 0 [] [] 0
  simpa using this

/-- Witness for C8 (amended): delay 1, one failing and one skipped
window: one call, one sleep. -/
theorem c8_pause_per_call_witness :
    (analyze_groups (fun _ _ => Except.error ()) 1 none [gOther, gSpk]).sleeps
      = (analyze_groups (fun _ _ => Except.error ()) 1 none [gOther, gSpk]).calls.length :=
  c8_pause_per_call (fun _ _ => Except.error ()) 1 none [gOther, gSpk] (by norm_num)

/-! ### Claims C5, C9 -/

/-- C5 as stated is false in its accounting part: a window whose
response parses to an empty detection list (`Except.ok []`, exactly what
`analyze_group` returns on an uninterpretable payload) takes the success
branch of `_analyze_groups`, which *resets* the consecutive-failure
counter.  Concretely: window 0 fails (counter 1), window 1 is a
parse-failure window; the claim says the counter is neither incremented
nor reset, predicting a final counter of 1, but the code ends with 0. -/
theorem c5_counterexample :
    (analyze_groups
        (fun i g => if i = 0 then Except.error ()
          else Except.ok (analyze_group_results i g (fun _ => ⟨"", "", "", ""⟩) none))
        0 none [gSpk, gSpk]).errors ≠ 1 := by decide

/-- C5 (amended): an uninterpretable payload (unparseable structured
data, or a dict without a list under the detections key) yields an empty
Detection list without raising, and the Orchestrator treats that window
exactly like a success: the consecutive-failure counter is *reset to 0*
(not incremented), and the window contributes zero Detections. -/
theorem c5_parse_failure_empty (port : Port) (delay : ℚ) (i cnt group_idx : Nat)
    (acc : List AnalysisResult) (calls : List Nat) (sleeps : Nat)
    (g : ChunkGroup) (rest : List ChunkGroup) (extract : Json → RawDetection)
    (payload : Option Json)
    (hbad : payload = none ∨ ∃ fields, payload = some (Json.obj fields) ∧
      ∀ items, jlookup ("detections") fields ≠ some (Json.arr items))
    (hg : anchorSpeaker g ≠ "other")
    (hport : port i g = Except.ok (analyze_group_results group_idx g extract payload)) :
    analyze_group_results group_idx g extract payload = [] ∧
    analyze_groups_aux port delay i cnt acc calls sleeps (g :: rest)
      = analyze_groups_aux port delay (i + 1) 0 acc (calls ++ [i])
          (if 0 < delay then sleeps + 1 else sleeps) rest := by
  have hempty : parse_json payload = [] := by
    rcases hbad with rfl | ⟨fields, rfl, hno⟩
    · rfl
    · cases hl : jlookup ("detections") fields with
      | none => simp [parse_json, hl]
      | some v =>
        cases v with
        | arr items => exact absurd hl (hno items)
        | null => simp [parse_json, hl]
        | bool b => simp [parse_json, hl]
        | num n => simp [parse_json, hl]
        | str s => simp [parse_json, hl]
        | obj fs => simp [parse_json, hl]
  have hres : analyze_group_results group_idx g extract payload = [] := by
    rw [analyze_group_results, hempty]
    rfl
  refine ⟨hres, ?_⟩
  rw [hres] at hport
  rw [aux_ok port delay i cnt acc calls sleeps g rest [] hg hport, List.append_nil]

/-- Witness for C5 (amended): a raw response that `json.loads` rejects
(`none`), against a non-skipped window, with the counter at 3. -/
theorem c5_parse_failure_empty_witness :
    analyze_group_results 7 gSpk (fun _ => ⟨"", "", "", ""⟩) none = [] ∧
    analyze_groups_aux
        (fun _ g => Except.ok (analyze_group_results 7 g (fun _ => ⟨"", "", "", ""⟩) none))
        0 0 3 [] [] 0 [gSpk]
      = analyze_groups_aux
          (fun _ g => Except.ok (analyze_group_results 7 g (fun _ => ⟨"", "", "", ""⟩) none))
          0 (0 + 1) 0 [] ([] ++ [0]) (if (0 : ℚ) < 0 then 0 + 1 else 0) [] :=
  c5_parse_failure_empty
    (fun _ g => Except.ok (analyze_group_results 7 g (fun _ => ⟨"", "", "", ""⟩) none))
    0 0 3 7 [] [] 0 gSpk [] (fun _ => ⟨"", "", "", ""⟩) none
    (Or.inl rfl) (by decide) rfl

/-- C9 as stated is false: a Detection's window-level start offset is
the *first* fragment's `start_char_id` (0 here), not the anchor
fragment's (5 here) — `analyze_group` sets `group_start_char_id =
group.items[0].start_char_id`. -/
theorem c9_counterexample :
    ¬ ∀ r ∈ build_results 0 gTwo [detOne],
        r.group_start_char_id = anchorStartChar gTwo := by decide

/-- C9 (amended): every Detection references the anchor fragment's span
as its fragment-level offsets (`chunk_start_char_id`,
`chunk_end_char_id`), while its window-level offsets run from the
window's *first* fragment's start to the anchor's end; the speaker is
the anchor's. -/
theorem c9_detection_offsets (group_idx : Nat) (g : ChunkGroup)
    (dets : List RawDetection) (r : AnalysisResult)
    (hr : r ∈ build_results group_idx g dets) :
    r.chunk_start_char_id = anchorStartChar g ∧
    r.chunk_end_char_id = anchorEndChar g ∧
    r.group_start_char_id = headStartChar g ∧
    r.group_end_char_id = anchorEndChar g ∧
    r.speaker_slug = anchorSpeaker g ∧
    r.group_idx = group_idx := by
  simp only [build_results, List.mem_filterMap] at hr
  obtain ⟨det, -, hdet⟩ := hr
  by_cases hs : pyStrip det.mistake_slug = ""
  · simp [hs] at hdet
  · rw [if_neg hs] at hdet
    obtain rfl := Option.some.inj hdet
    exact ⟨rfl, rfl, rfl, rfl, rfl, rfl⟩

/-- Witness for C9 (amended) on a concrete two-fragment window. -/
theorem c9_detection_offsets_witness :
    (⟨1, "s2", "slug", 0, 9, 5, 9, "r", "", ""⟩ : AnalysisResult).chunk_start_char_id
        = anchorStartChar gTwo ∧
    (⟨1, "s2", "slug", 0, 9, 5, 9, "r", "", ""⟩ : AnalysisResult).chunk_end_char_id
        = anchorEndChar gTwo ∧
    (⟨1, "s2", "slug", 0, 9, 5, 9, "r", "", ""⟩ : AnalysisResult).group_start_char_id
        = headStartChar gTwo ∧
    (⟨1, "s2", "slug", 0, 9, 5, 9, "r", "", ""⟩ : AnalysisResult).group_end_char_id
        = anchorEndChar gTwo ∧
    (⟨1, "s2", "slug", 0, 9, 5, 9, "r", "", ""⟩ : AnalysisResult).speaker_slug
        = anchorSpeaker gTwo ∧
    (⟨1, "s2", "slug", 0, 9, 5, 9, "r", "", ""⟩ : AnalysisResult).group_idx = 1 :=
  c9_detection_offsets 1 gTwo [detOne] ⟨1, "s2", "slug", 0, 9, 5, 9, "r", "", ""⟩ (by decide)

/-! ### Claim C6 -/

theorem joinSep_cons_cons (sep f r : List Char) (rest : List (List Char)) :
    joinSep sep (f :: r :: rest) = f ++ sep ++ joinSep sep (r :: rest) := rfl

/-- With a 2-character separator, the hard-coded `+ 2` cursor advance of
`split` locates every fragment exactly: slicing the joined text at the
recorded offsets recovers each fragment. -/
theorem buildChunks_slices (sep : List Char) (hsep : sep.length = 2)
    (speaker_fn : List Char → String) (tok : List Char → Nat) :
    ∀ (frags : List (List Char)) (u : List Char),
      (buildChunks speaker_fn tok frags u.length).map
        (fun c => sliceText (u ++ joinSep sep frags) c.start_char_id c.end_char_id)
        = frags := by
  intro frags
  induction frags with
  | nil =>
    intro u
    rfl
  | cons f rest ih =>
    intro u
    simp only [buildChunks, List.map_cons]
    have hhead : sliceText (u ++ joinSep sep (f :: rest)) u.length (u.length + f.length) = f := by
      cases rest with
      | nil =>
        show sliceText (u ++ f) u.length (u.length + f.length) = f
        rw [sliceText, List.drop_left, Nat.add_sub_cancel_left, List.take_length]
      | cons r rest' =>
        rw [joinSep_cons_cons, sliceText, Nat.add_sub_cancel_left, List.drop_left,
          List.append_assoc, List.take_left]
    have htail : (buildChunks speaker_fn tok rest (u.length + f.length + 2)).map
        (fun c => sliceText (u ++ joinSep sep (f :: rest)) c.start_char_id c.end_char_id)
        = rest := by
      cases rest with
      | nil => rfl
      | cons r rest' =>
        have hu' : u.length + f.length + 2 = (u ++ f ++ sep).length := by
          rw [List.length_append, List.length_append, hsep]
        have htext : u ++ joinSep sep (f :: r :: rest')
            = (u ++ f ++ sep) ++ joinSep sep (r :: rest') := by
          rw [joinSep_cons_cons]
          simp [List.append_assoc]
        rw [hu', htext]
        exact ih (u ++ f ++ sep)
    rw [hhead, htail]

/-- C6 as stated is false: the source always advances the offset cursor
by `len(chunk) + 2`, whatever the splitter's separator is.  For a
genuine 1-character-separator splitter (`"a\nb".split("\n")`), slicing
the original text at the recorded offsets and re-joining loses text:
the reconstruction yields `"a\n"` instead of `"a\nb"`. -/
theorem c6_counterexample :
    joinSep ['\n'] [['a'], ['b']] = ['a', '\n', 'b'] ∧
    joinSep ['\n'] ((split_chunks (fun _ => [['a'], ['b']]) (fun _ => "x")
        (fun _ => 0) ['a', '\n', 'b']).map
      (fun c => sliceText ['a', '\n', 'b'] c.start_char_id c.end_char_id))
      ≠ ['a', '\n', 'b'] := by decide

/-- C6 (amended): for every splitter whose fixed separator is exactly
two characters long (such as the default double-newline rule), the
cursor walk of `split` assigns offsets such that slicing the original
text at each fragment's `[start_char_id, end_char_id)` and re-joining
the slices with the separator reproduces the original text exactly. -/
theorem c6_offset_round_trip (sep : List Char)
    (split_fn : List Char → List (List Char)) (speaker_fn : List Char → String)
    (tok : List Char → Nat) (text : List Char)
    (hsep : sep.length = 2) (hsplit : joinSep sep (split_fn text) = text) :
    joinSep sep ((split_chunks split_fn speaker_fn tok text).map
      (fun c => sliceText text c.start_char_id c.end_char_id)) = text := by
  have h := buildChunks_slices sep hsep speaker_fn tok (split_fn text) []
  simp only [List.nil_append, List.length_nil] at h
  rw [hsplit] at h
  rw [split_chunks, h, hsplit]

/-- Witness for C6 (amended): the default double-newline separator on
`"ab\n\ncd"`, with a genuine splitter for it. -/
theorem c6_offset_round_trip_witness :
    joinSep ['\n', '\n']
      ((split_chunks (fun _ => [['a', 'b'], ['c', 'd']]) (fun _ => "x")
          (fun _ => 1) ['a', 'b', '\n', '\n', 'c', 'd']).map
        (fun c => sliceText ['a', 'b', '\n', '\n', 'c', 'd'] c.start_char_id c.end_char_id))
      = ['a', 'b', '\n', '\n', 'c', 'd'] :=
  c6_offset_round_trip ['\n', '\n'] (fun _ => [['a', 'b'], ['c', 'd']]) (fun _ => "x")
    (fun _ => 1) ['a', 'b', '\n', '\n', 'c', 'd'] (by decide) (by decide)

/-! ### Claim C10 -/

theorem anchorSpeaker_eq_getLast (g : ChunkGroup) (c : Chunk)
    (h : g.items.getLast? = some c) : anchorSpeaker g = c.speaker := by
  simp [anchorSpeaker, h]

/-- Under the default `speaker_fn`, every produced fragment is labelled
`"other"`. -/
theorem buildChunks_default_speaker (tok : List Char → Nat) :
    ∀ (frags : List (List Char)) (pos : Nat),
      ∀ c ∈ buildChunks default_speaker_fn tok frags pos, c.speaker = "other" := by
  intro frags
  induction frags with
  | nil =>
    intro pos c hc
    simp [buildChunks] at hc
  | cons f rest ih =>
    intro pos c hc
    simp only [buildChunks] at hc
    rcases List.mem_cons.mp hc with rfl | hc'
    · rfl
    · exact ih _ c hc'

/-- C10: a chunker constructed without an explicit `speaker_fn` labels
every fragment with the speaker `"other"` — exactly the Orchestrator's
skip sentinel — so on any input text whose split completes, every
emitted window is skipped: the Analyzer Port is never invoked and the
run's Detection list is empty, whatever the Port would return. -/
theorem c10_default_speaker_all_skipped (cfg : ChunkerCfg)
    (split_fn : List Char → List (List Char)) (tok : List Char → Nat)
    (text : List Char) (port : Port) (delay : ℚ) (mg : Option Nat)
    (gs : List ChunkGroup)
    (hsplit : chunker_split cfg split_fn default_speaker_fn tok text = some gs) :
    (∀ c ∈ split_chunks split_fn default_speaker_fn tok text, c.speaker = "other") ∧
    (analyze_groups port delay mg gs).results = [] ∧
    (analyze_groups port delay mg gs).calls = [] := by
  have hsplit' : combineAux cfg
      ((split_chunks split_fn default_speaker_fn tok text).take cfg.window_start)
      (sumTokens ((split_chunks split_fn default_speaker_fn tok text).take cfg.window_start))
      ((split_chunks split_fn default_speaker_fn tok text).drop cfg.window_start)
      = some gs := hsplit
  have hchunks : ∀ c ∈ split_chunks split_fn default_speaker_fn tok text,
      c.speaker = "other" :=
    buildChunks_default_speaker tok (split_fn text) 0
  have hanchor : ∀ g ∈ gs, anchorSpeaker g = "other" := by
    intro g hg
    obtain ⟨hne, -, -⟩ := combineAux_windows cfg _ _ _ gs rfl hsplit' g hg
    have hlast := List.getLast?_eq_getLast_of_ne_nil hne
    have hmem : g.items.getLast hne ∈ g.items := List.getLast_mem hne
    have hin : g.items.getLast hne ∈ split_chunks split_fn default_speaker_fn tok text := by
      rcases combineAux_mem cfg _ _ _ gs hsplit' g hg _ hmem with h1 | h1
      · exact List.mem_of_mem_take h1
      · exact List.drop_subset _ _ h1
    rw [anchorSpeaker_eq_getLast g _ hlast]
    exact hchunks _ hin
  refine ⟨hchunks, ?_, ?_⟩ <;>
  · dsimp only [analyze_groups]
    rw [aux_all_skipped port delay _ 0 0 [] [] 0
      (fun g hg => hanchor g (List.mem_of_mem_take hg))]

/-- Witness for C10: default chunker on the text `"a"`, against a Port
that would return a detection if it were ever called. -/
theorem c10_default_speaker_all_skipped_witness :
    (⟨"other", ['a'], 1, 0, 1⟩ : Chunk).speaker = "other" ∧
    (analyze_groups (fun _ _ => Except.ok [⟨0, "x", "m", 0, 0, 0, 0, "r", "", ""⟩]) 0 none
        [⟨[⟨"other", ['a'], 1, 0, 1⟩]⟩]).results = [] ∧
    (analyze_groups (fun _ _ => Except.ok [⟨0, "x", "m", 0, 0, 0, 0, "r", "", ""⟩]) 0 none
        [⟨[⟨"other", ['a'], 1, 0, 1⟩]⟩]).calls = [] :=
  ⟨(c10_default_speaker_all_skipped ⟨6000, 12, 0⟩ (fun t => [t]) (fun _ => 1) ['a']
      (fun _ _ => Except.ok [⟨0, "x", "m", 0, 0, 0, 0, "r", "", ""⟩]) 0 none
      [⟨[⟨"other", ['a'], 1, 0, 1⟩]⟩] (by decide)).1 ⟨"other", ['a'], 1, 0, 1⟩ (by decide),
   (c10_default_speaker_all_skipped ⟨6000, 12, 0⟩ (fun t => [t]) (fun _ => 1) ['a']
      (fun _ _ => Except.ok [⟨0, "x", "m", 0, 0, 0, 0, "r", "", ""⟩]) 0 none
      [⟨[⟨"other", ['a'], 1, 0, 1⟩]⟩] (by decide)).2.1,
   (c10_default_speaker_all_skipped ⟨6000, 12, 0⟩ (fun t => [t]) (fun _ => 1) ['a']
      (fun _ _ => Except.ok [⟨0, "x", "m", 0, 0, 0, 0, "r", "", ""⟩]) 0 none
      [⟨[⟨"other", ['a'], 1, 0, 1⟩]⟩] (by decide)).2.2⟩

end RhetoricAnalyzer
